import Mathlib

/-!
# Change-impact policy engine of kubitect (`cli/actions/events.go`)

Shallow embedding of the event tables, of `Events.Add`, `Events.OfType`,
`Events.Errors`, `events` and `triggerEvents`, together with the parts of the
absent package `cmp` they call, and the properties established about them.
-/

namespace Kubitect

/-! ## Package `cmp` (absent from the sources) -/

/-- Modelled from the spec: the kind of an elementary change, `cmp.ActionType`
(spec §3, `kind: CREATE|MODIFY|DELETE`). The package `cmp` is not part of the
sources. -/
inductive ActionType where
  | CREATE
  | MODIFY
  | DELETE
  deriving DecidableEq

/-- Modelled from the spec: `cmp.Change`, one elementary difference
`{path, kind, oldValue, newValue}` (spec §3). `Path` is the dot-separated
path string read by `Events.Errors`. -/
structure Change where
  Path : String
  Action : ActionType
  ValueBefore : String
  ValueAfter : String
  deriving DecidableEq

/-- Modelled from the spec: `cmp.DiffNode` is consumed only through its flat,
ordered sequence of elementary changes (spec §1, §4.2). -/
abbrev DiffNode := List Change

/-- Modelled from the spec: a path string is a dot-separated sequence of
segments (spec §3, §6). Splits a character list at every `.`; the result
always has at least one segment. -/
def splitDots : List Char → List (List Char)
  | [] => [[]]
  | c :: cs =>
    if c = '.' then [] :: splitDots cs
    else
      match splitDots cs with
      | [] => [[c]]
      | s :: ss => (c :: s) :: ss

/-- Modelled from the spec: segment-wise comparison of PathMatcher (spec §4.1).
A pattern segment `*` matches any single segment, a literal segment only an
identical one; a pattern no longer than the path matches when it matches the
corresponding prefix (exact match or subtree match), a longer one never. -/
def matchSegments : List (List Char) → List (List Char) → Bool
  | [], _ => true
  | _ :: _, [] => false
  | p :: ps, s :: ss => (p == ['*'] || p == s) && matchSegments ps ss

/-- Modelled from the spec: `matches(pattern, concretePath)` of PathMatcher
(spec §4.1) on dot-separated strings. -/
def pathMatches (pattern path : String) : Bool :=
  matchSegments (splitDots pattern.data) (splitDots path.data)

/-! ## Package `actions`: `events.go` -/

/-- The type `EventType` with its five constants. -/
inductive EventType where
  | OK
  | SCALE_UP
  | SCALE_DOWN
  | WARN
  | BLOCK
  deriving DecidableEq

/-- The struct `Event`. The field `action` is `none` for the zero value of
`cmp.ActionType` (a rule without kind filter). -/
structure Event where
  eType : EventType
  msg : String := ""
  path : String := ""
  paths : List String := []
  changes : List Change := []
  action : Option ActionType := none
  deriving DecidableEq

/-- The method `Event.Paths`. -/
def Event.Paths (e : Event) : List String :=
  if e.path.length > 0 then [e.path] else e.paths

/-- The method `Event.Action`. -/
def Event.Action (e : Event) : Option ActionType := e.action

abbrev Events := List Event

/-- The method `Events.Add`: the change is appended to the first event of the
list with the same `action` and `path`, otherwise the event is appended with
the change as its only change. -/
def Events.Add : Events → Event → Change → Events
  | [], event, c => [{ event with changes := [c] }]
  | e :: es, event, c =>
    if e.action = event.action ∧ e.path = event.path then
      { e with changes := e.changes ++ [c] } :: es
    else e :: Events.Add es event c

/-- The method `Events.OfType`. -/
def Events.OfType (es : Events) (t : EventType) : Events :=
  es.filter (fun e => e.eType = t)

/-- Modelled from the spec: the values built by `NewConfigChangeWarning` and
`NewConfigChangeError` (declared outside the sources): a message together
with the concrete paths involved (spec §6, §7). -/
inductive ConfigChange where
  | Warning (msg : String) (paths : List String)
  | Error (msg : String) (paths : List String)
  deriving DecidableEq

/-- The method `Events.Errors`. -/
def Events.Errors : Events → List ConfigChange
  | [] => []
  | e :: es =>
    let paths := e.changes.map (fun c => c.Path)
    match e.eType with
    | EventType.WARN => ConfigChange.Warning e.msg paths :: Events.Errors es
    | EventType.BLOCK => ConfigChange.Error e.msg paths :: Events.Errors es
    | _ => Events.Errors es

/-- Modelled from the spec: `env.ApplyAction`, the requested action as the
string given on the command line (spec §6: `create`, `scale`, `upgrade`); the
package `env` is not part of the sources. -/
abbrev ApplyAction := String

/-- Modelled from the spec: the constant `env.CREATE` (spec §6). -/
def env.CREATE : ApplyAction := "create"

/-- Modelled from the spec: the constant `env.SCALE` (spec §6). -/
def env.SCALE : ApplyAction := "scale"

/-- Modelled from the spec: the constant `env.UPGRADE` (spec §6). -/
def env.UPGRADE : ApplyAction := "upgrade"

/-- The table `UpgradeEvents`. -/
def UpgradeEvents : List Event := [
  { eType := EventType.OK,
    path := "Kubernetes.Version" },
  { eType := EventType.OK,
    path := "Kubernetes.Kubespray.Version" }
]

/-- The table `ScaleEvents`. -/
def ScaleEvents : List Event := [
  { eType := EventType.SCALE_DOWN,
    action := some ActionType.DELETE,
    path := "Cluster.Nodes.Worker.Instances.*" },
  { eType := EventType.SCALE_UP,
    action := some ActionType.CREATE,
    path := "Cluster.Nodes.Worker.Instances.*" },
  { eType := EventType.SCALE_DOWN,
    action := some ActionType.DELETE,
    path := "Cluster.Nodes.LoadBalancer.Instances.*" },
  { eType := EventType.SCALE_UP,
    action := some ActionType.CREATE,
    path := "Cluster.Nodes.LoadBalancer.Instances.*" }
]

/-- The table `ModifyEvents`. -/
def ModifyEvents : List Event := [
  -- Warn data destructive host changes
  { eType := EventType.WARN,
    action := some ActionType.MODIFY,
    path := "Hosts.*.MainResourcePoolPath",
    msg := "Changing main resource pool location will trigger recreation of all resources bound to that resource pool, such as virtual machines and data disks." },
  { eType := EventType.WARN,
    action := some ActionType.DELETE,
    path := "Hosts.*.DataResourcePools.*",
    msg := "Removing data resource pool will destroy all the data on that location." },
  { eType := EventType.WARN,
    action := some ActionType.MODIFY,
    path := "Hosts.*.DataResourcePools.*.Path",
    msg := "Changing data resource pool location will trigger recreation of all resources bound to that resource pool, such as virtual machines and data disks" },
  -- Allow other host changes
  { eType := EventType.OK,
    path := "Hosts" },
  -- Prevent cluster network changes
  { eType := EventType.BLOCK,
    path := "Cluster.Network",
    msg := "Once the cluster is created, further changes to the network properties are not allowed. Such action may render the cluster unusable." },
  -- Prevent nodeTemplate changes
  { eType := EventType.BLOCK,
    path := "Cluster.NodeTemplate",
    msg := "Once the cluster is created, further changes to the nodeTemplate properties are not allowed. Such action may render the cluster unusable." },
  -- Prevent removing nodes
  { eType := EventType.BLOCK,
    action := some ActionType.DELETE,
    paths := [
      "Cluster.Nodes.LoadBalancer.Instances.*",
      "Cluster.Nodes.Worker.Instances.*",
      "Cluster.Nodes.Master.Instances.*"],
    msg := "To remove existing nodes run apply command with '--action scale' flag." },
  -- Prevent adding nodes
  { eType := EventType.BLOCK,
    action := some ActionType.CREATE,
    paths := [
      "Cluster.Nodes.LoadBalancer.Instances.*",
      "Cluster.Nodes.Worker.Instances.*",
      "Cluster.Nodes.Master.Instances.*"],
    msg := "To add new nodes run apply command with '--action scale' flag." },
  -- Prevent default CPU, RAM and main disk size changes
  { eType := EventType.BLOCK,
    paths := [
      "Cluster.Nodes.Worker.Default.CPU",
      "Cluster.Nodes.Worker.Default.RAM",
      "Cluster.Nodes.Worker.Default.MainDiskSize",
      "Cluster.Nodes.Master.Default.CPU",
      "Cluster.Nodes.Master.Default.RAM",
      "Cluster.Nodes.Master.Default.MainDiskSize",
      "Cluster.Nodes.LoadBalancer.Default.CPU",
      "Cluster.Nodes.LoadBalancer.Default.RAM",
      "Cluster.Nodes.LoadBalancer.Default.MainDiskSize"],
    msg := "Changing any default physical properties of nodes (cpu, ram, mainDiskSize) is not allowed. Such action may render the cluster unusable." },
  -- Prevent CPU, RAM and main disk size changes
  { eType := EventType.BLOCK,
    action := some ActionType.MODIFY,
    paths := [
      "Cluster.Nodes.Worker.Instances.*.CPU",
      "Cluster.Nodes.Worker.Instances.*.RAM",
      "Cluster.Nodes.Worker.Instances.*.MainDiskSize",
      "Cluster.Nodes.Master.Instances.*.CPU",
      "Cluster.Nodes.Master.Instances.*.RAM",
      "Cluster.Nodes.Master.Instances.*.MainDiskSize",
      "Cluster.Nodes.LoadBalancer.Instances.*.CPU",
      "Cluster.Nodes.LoadBalancer.Instances.*.RAM",
      "Cluster.Nodes.LoadBalancer.Instances.*.MainDiskSize"],
    msg := "Changing any physical properties of nodes (cpu, ram, mainDiskSize) is not allowed. Such action will recreate the node." },
  -- Prevent IP and MAC changes
  { eType := EventType.BLOCK,
    action := some ActionType.MODIFY,
    paths := [
      "Cluster.Nodes.Worker.Instances.*.IP",
      "Cluster.Nodes.Worker.Instances.*.MAC",
      "Cluster.Nodes.Master.Instances.*.IP",
      "Cluster.Nodes.Master.Instances.*.MAC",
      "Cluster.Nodes.LoadBalancer.Instances.*.IP",
      "Cluster.Nodes.LoadBalancer.Instances.*.MAC"],
    msg := "Changing IP or MAC address of the node is not allowed. Such action may render the cluster unusable." },
  -- Data disk changes
  { eType := EventType.WARN,
    action := some ActionType.MODIFY,
    paths := [
      "Cluster.Nodes.Worker.Instances.*.DataDisks.*",
      "Cluster.Nodes.Master.Instances.*.DataDisks.*"],
    msg := "Changing data disk properties, will recreate the disk (removing all of its content in the process)." },
  { eType := EventType.WARN,
    action := some ActionType.DELETE,
    paths := [
      "Cluster.Nodes.Master.Instances.*.DataDisks.*",
      "Cluster.Nodes.Worker.Instances.*.DataDisks.*"],
    msg := "One or more data disks will be removed." },
  { eType := EventType.OK,
    action := some ActionType.CREATE,
    paths := [
      "Cluster.Nodes.Master.Instances.*.DataDisks.*",
      "Cluster.Nodes.Worker.Instances.*.DataDisks.*"] },
  -- Prevent VIP changes
  { eType := EventType.BLOCK,
    path := "Cluster.Nodes.LoadBalancer.VIP",
    msg := "Once the cluster is created, changing virtual IP (VIP) is not allowed. Such action may render the cluster unusable." },
  -- Allow all other node properties to be changed
  { eType := EventType.OK,
    paths := [
      "Cluster.Nodes.Master.Instances.*",
      "Cluster.Nodes.Worker.Instances.*",
      "Cluster.Nodes.LoadBalancer.Instances.*"] },
  -- Prevent k8s properties changes
  { eType := EventType.BLOCK,
    paths := [
      "Kubernetes.Version",
      "Kubernetes.Kubespray.Version"],
    msg := "Changing Kubernetes or Kubespray version is allowed only when upgrading the cluster.\nTo upgrade the cluster run apply command with '--action upgrade' flag." },
  -- Allow addons changes
  { eType := EventType.OK,
    path := "Addons" },
  -- Allow kubitect (project metadata) changes
  { eType := EventType.OK,
    path := "Kubitect" }
]

/-- The function `events`: the table of the given action, the empty table
for any other action. -/
def events (a : ApplyAction) : List Event :=
  if a = env.CREATE then ModifyEvents
  else if a = env.SCALE then ScaleEvents
  else if a = env.UPGRADE then UpgradeEvents
  else []

/-- Modelled from the spec: whether a rule applies to a change (spec §4.4):
its kind filter is unset or equals the kind of the change, and one of its
patterns (`Event.Paths`) matches the path of the change. The matching code
of package `cmp` is not part of the sources. -/
def ruleMatches (e : Event) (c : Change) : Bool :=
  (e.Action = none || e.Action = some c.Action) &&
    e.Paths.any (fun p => pathMatches p c.Path)

/-- Modelled from the spec: the first rule of the table, in table order, that
applies to the change (spec §4.4, first match wins). -/
def firstMatch (table : List Event) (c : Change) : Option Event :=
  table.find? (fun e => ruleMatches e c)

/-- Modelled from the spec: `cmp.TriggerEventsF` (absent from the sources):
for each change in diff order the first matching rule of the table is
triggered with the change (spec §4.4). The callback `trigger` receives and
returns the state it updates (in `triggerEvents` the list `trig`). -/
def TriggerEventsF {σ : Type} (diff : DiffNode) (table : List Event)
    (trigger : σ → Event → Change → σ) (init : σ) : σ :=
  diff.foldl
    (fun st c =>
      match firstMatch table c with
      | some e => trigger st e c
      | none => st)
    init

/-- Modelled from the spec: `cmp.ConflictingChanges` (absent from the
sources): the changes matched by no rule of the table, in diff order
(spec §4.4). -/
def ConflictingChanges (diff : DiffNode) (table : List Event) : List Change :=
  diff.filter (fun c => (firstMatch table c).isNone)

/-- The function `triggerEvents`. -/
def triggerEvents (diff : DiffNode) (action : ApplyAction) : Events :=
  let table := events action
  let trig : Events := TriggerEventsF diff table Events.Add []
  let cc := ConflictingChanges diff table
  if cc.length > 0 then
    trig ++ [{ eType := EventType.BLOCK, msg := "Disallowed changes.", changes := cc }]
  else trig

/-! ## Vocabulary of the statements -/

/-- The pair compared by `Events.Add` to decide whether two events are the
same: the `action` and the `path` field. -/
def Event.key (e : Event) : Option ActionType × String := (e.action, e.path)

/-- The key of the rule that classifies a change, if any rule does. -/
def keyOf (table : List Event) (c : Change) : Option (Option ActionType × String) :=
  (firstMatch table c).map Event.key

/-- One step of the loop run by `TriggerEventsF` with the callback
`Events.Add`. -/
def classify (table : List Event) (st : Events) (c : Change) : Events :=
  match firstMatch table c with
  | some e => Events.Add st e c
  | none => st

/-- The synthetic event appended by `triggerEvents` for the changes matched by
no rule. -/
def disallowed (cc : List Change) : Event :=
  { eType := EventType.BLOCK, msg := "Disallowed changes.", changes := cc }

/-- The list built from the empty list by a sequence of `Events.Add` calls,
each given by its event and its change. -/
def addAll (calls : List (Event × Change)) : Events :=
  calls.foldl (fun st p => Events.Add st p.1 p.2) []

/-- What holds of the list `st` built by `TriggerEventsF` from the changes
`d` processed so far. -/
structure TrigInv (table : List Event) (d : List Change) (st : Events) : Prop where
  nodup : (st.map Event.key).Nodup
  changes : ∀ e ∈ st, e.changes = d.filter (fun c => decide (keyOf table c = some e.key))
  covered : ∀ c ∈ d, ∀ k, keyOf table c = some k → k ∈ st.map Event.key
  origin : ∀ e ∈ st, ∃ r ∈ table, e = { r with changes := e.changes }

/-! ## Path splitting -/

theorem splitDots_ne_nil (cs : List Char) : splitDots cs ≠ [] := by
  induction cs with
  | nil => simp [splitDots]
  | cons c cs ih =>
    unfold splitDots
    split
    · simp
    · split <;> simp

theorem splitDots_segment (seg rest : List Char) (h : '.' ∉ seg) :
    splitDots (seg ++ '.' :: rest) = seg :: splitDots rest := by
  induction seg with
  | nil => simp [splitDots]
  | cons c cs ih =>
    have hc : c ≠ '.' := fun e => h (by simp [e])
    have hcs : '.' ∉ cs := fun e => h (by simp [e])
    rw [List.cons_append, splitDots, if_neg hc, ih hcs]

theorem splitDots_exists_cons (cs : List Char) : ∃ s ss, splitDots cs = s :: ss := by
  cases h : splitDots cs with
  | nil => exact absurd h (splitDots_ne_nil _)
  | cons s ss => exact ⟨s, ss, rfl⟩

theorem Event.Paths_eq (e : Event) :
    e.Paths = if e.path = "" then e.paths else [e.path] := by
  unfold Event.Paths
  by_cases h : e.path = ""
  · simp [h]
  · have hpos : 0 < e.path.length := by
      rcases hp : e.path with ⟨l⟩
      cases l with
      | nil => exact absurd hp h
      | cons a l => simp [String.length]
    simp [h, hpos]

theorem firstMatch_segs (table : List Event) (c : Change) (segs : List (List Char))
    (h : splitDots c.Path.data = segs) :
    firstMatch table c = table.find? (fun e =>
      (e.action = none || e.action = some c.Action) &&
        e.Paths.any (fun p => matchSegments (splitDots p.data) segs)) := by
  subst h; rfl

/-! ## `Events.Add` -/

theorem Add_cases (es : Events) (event : Event) (c : Change) :
    (∃ pre e post, es = pre ++ e :: post ∧ e.key = event.key ∧
        (∀ x ∈ pre, x.key ≠ event.key) ∧
        Events.Add es event c = pre ++ { e with changes := e.changes ++ [c] } :: post) ∨
    ((∀ x ∈ es, x.key ≠ event.key) ∧
        Events.Add es event c = es ++ [{ event with changes := [c] }]) := by
  induction es with
  | nil => right; simp [Events.Add]
  | cons e es ih =>
    by_cases hk : e.action = event.action ∧ e.path = event.path
    · left
      refine ⟨[], e, es, rfl, ?_, by simp, ?_⟩
      · simp [Event.key, hk.1, hk.2]
      · simp [Events.Add, hk]
    · have hne : e.key ≠ event.key := by
        intro h
        apply hk
        simp only [Event.key, Prod.mk.injEq] at h
        exact h
      rcases ih with ⟨pre, e0, post, hes, hk0, hpre, hadd⟩ | ⟨hall, hadd⟩
      · left
        refine ⟨e :: pre, e0, post, by simp [hes], hk0, ?_, ?_⟩
        · intro x hx
          rcases List.mem_cons.1 hx with rfl | hx
          · exact hne
          · exact hpre x hx
        · simp [Events.Add, hk, hadd]
      · right
        refine ⟨?_, ?_⟩
        · intro x hx
          rcases List.mem_cons.1 hx with rfl | hx
          · exact hne
          · exact hall x hx
        · simp [Events.Add, hk, hadd]

/-- C7. `Events.Add(event, c)`: if the list holds an event with the action and
path of `event`, the change is appended to the change list of the first such
event and the list keeps its length; otherwise the list grows by exactly one
element at its end, `event` with `[c]` as its change list. -/
theorem Events.Add_contract (es : Events) (event : Event) (c : Change) :
    ((∃ e ∈ es, e.action = event.action ∧ e.path = event.path) →
      ∃ pre e post, es = pre ++ e :: post ∧
        (e.action = event.action ∧ e.path = event.path) ∧
        (∀ x ∈ pre, ¬ (x.action = event.action ∧ x.path = event.path)) ∧
        Events.Add es event c = pre ++ { e with changes := e.changes ++ [c] } :: post ∧
        (Events.Add es event c).length = es.length) ∧
    ((¬ ∃ e ∈ es, e.action = event.action ∧ e.path = event.path) →
      Events.Add es event c = es ++ [{ event with changes := [c] }] ∧
        (Events.Add es event c).length = es.length + 1) := by
  have key_iff : ∀ x : Event, x.key = event.key ↔
      (x.action = event.action ∧ x.path = event.path) := by
    intro x; simp [Event.key]
  constructor
  · rintro ⟨e1, he1, hk1⟩
    rcases Add_cases es event c with ⟨pre, e, post, hes, hk, hpre, hadd⟩ | ⟨hall, _⟩
    · refine ⟨pre, e, post, hes, (key_iff e).1 hk, ?_, hadd, ?_⟩
      · intro x hx hx2
        exact hpre x hx ((key_iff x).2 hx2)
      · rw [hadd, hes]; simp
    · exact absurd ((key_iff e1).2 hk1) (hall e1 he1)
  · intro hno
    rcases Add_cases es event c with ⟨pre, e, post, hes, hk, _, _⟩ | ⟨_, hadd⟩
    · exact absurd ⟨e, by simp [hes], (key_iff e).1 hk⟩ hno
    · exact ⟨hadd, by rw [hadd]; simp⟩

theorem Events.Add_contract_witness :
    (∃ pre e post,
      ([{ eType := EventType.OK, path := "Hosts",
          changes := [⟨"Hosts.h1.Name", ActionType.MODIFY, "a", "b"⟩] }] : Events) =
        pre ++ e :: post ∧
      (e.action = none ∧ e.path = "Hosts") ∧
      (∀ x ∈ pre, ¬ (x.action = none ∧ x.path = "Hosts")) ∧
      Events.Add
          [{ eType := EventType.OK, path := "Hosts",
             changes := [⟨"Hosts.h1.Name", ActionType.MODIFY, "a", "b"⟩] }]
          { eType := EventType.OK, path := "Hosts" }
          ⟨"Hosts.h2.Name", ActionType.MODIFY, "c", "d"⟩ =
        pre ++ { e with changes :=
          e.changes ++ [⟨"Hosts.h2.Name", ActionType.MODIFY, "c", "d"⟩] } :: post ∧
      (Events.Add
          [{ eType := EventType.OK, path := "Hosts",
             changes := [⟨"Hosts.h1.Name", ActionType.MODIFY, "a", "b"⟩] }]
          { eType := EventType.OK, path := "Hosts" }
          ⟨"Hosts.h2.Name", ActionType.MODIFY, "c", "d"⟩).length = 1) ∧
    (Events.Add [] { eType := EventType.OK, path := "Addons" }
        ⟨"Addons.Rook.Enabled", ActionType.MODIFY, "false", "true"⟩ =
      [] ++ [{ eType := EventType.OK, path := "Addons",
               changes := [⟨"Addons.Rook.Enabled", ActionType.MODIFY, "false", "true"⟩] }] ∧
     (Events.Add [] { eType := EventType.OK, path := "Addons" }
        ⟨"Addons.Rook.Enabled", ActionType.MODIFY, "false", "true"⟩).length = 0 + 1) :=
  ⟨(Events.Add_contract
      [{ eType := EventType.OK, path := "Hosts",
         changes := [⟨"Hosts.h1.Name", ActionType.MODIFY, "a", "b"⟩] }]
      { eType := EventType.OK, path := "Hosts" }
      ⟨"Hosts.h2.Name", ActionType.MODIFY, "c", "d"⟩).1 (by decide),
   (Events.Add_contract [] { eType := EventType.OK, path := "Addons" }
      ⟨"Addons.Rook.Enabled", ActionType.MODIFY, "false", "true"⟩).2 (by decide)⟩

/-! ## The loop of `TriggerEventsF` -/

theorem TriggerEventsF_eq_foldl (diff : DiffNode) (table : List Event) :
    TriggerEventsF diff table Events.Add [] = diff.foldl (classify table) [] := rfl

theorem firstMatch_mem {table : List Event} {c : Change} {r : Event}
    (h : firstMatch table c = some r) : r ∈ table :=
  List.mem_of_find?_eq_some h

theorem firstMatch_matches {table : List Event} {c : Change} {r : Event}
    (h : firstMatch table c = some r) : ruleMatches r c = true := by
  unfold firstMatch at h
  exact @List.find?_some _ (fun e => ruleMatches e c) r table h

theorem keyOf_of_firstMatch {table : List Event} {c : Change} {r : Event}
    (h : firstMatch table c = some r) : keyOf table c = some r.key := by
  simp [keyOf, h]

theorem filter_snoc_neg {α : Type} (p : α → Bool) (d : List α) (c : α) (h : p c = false) :
    (d ++ [c]).filter p = d.filter p := by
  simp [List.filter_append, h]

theorem filter_snoc_pos {α : Type} (p : α → Bool) (d : List α) (c : α) (h : p c = true) :
    (d ++ [c]).filter p = d.filter p ++ [c] := by
  simp [List.filter_append, h]

theorem TrigInv_nil (table : List Event) : TrigInv table [] [] :=
  ⟨by simp, by simp, by simp, by simp⟩

theorem TrigInv_skip {table : List Event} {d : List Change} {st : Events} {c : Change}
    (inv : TrigInv table d st) (hc : firstMatch table c = none) :
    TrigInv table (d ++ [c]) st := by
  have hk : keyOf table c = none := by simp [keyOf, hc]
  refine ⟨inv.nodup, ?_, ?_, inv.origin⟩
  · intro e he
    rw [filter_snoc_neg _ _ _ (by simp [hk])]
    exact inv.changes e he
  · intro c1 hc1 k hk1
    rcases List.mem_append.1 hc1 with h | h
    · exact inv.covered c1 h k hk1
    · have e1 : c1 = c := by simpa using h
      subst e1
      rw [hk] at hk1
      exact absurd hk1 (by simp)

theorem TrigInv_fold {table : List Event} {d : List Change} {st : Events} {c : Change}
    {r : Event} (inv : TrigInv table d st) (hc : firstMatch table c = some r)
    {pre post : Events} {e : Event} (hst : st = pre ++ e :: post) (hk : e.key = r.key) :
    TrigInv table (d ++ [c])
      (pre ++ { e with changes := e.changes ++ [c] } :: post) := by
  have hkc : keyOf table c = some r.key := keyOf_of_firstMatch hc
  have hkeys : (pre ++ { e with changes := e.changes ++ [c] } :: post).map Event.key
      = st.map Event.key := by
    simp [hst, Event.key]
  have hnd := inv.nodup
  rw [hst] at hnd
  simp only [List.map_append, List.map_cons] at hnd
  have hnd2 := List.nodup_append.1 hnd
  have hnd3 := List.nodup_cons.1 hnd2.2.1
  refine ⟨by rw [hkeys]; exact inv.nodup, ?_, ?_, ?_⟩
  · intro x hx
    rcases List.mem_append.1 hx with hx | hx
    · have hne : x.key ≠ r.key := by
        intro h
        have h1 : x.key ∈ pre.map Event.key := List.mem_map_of_mem _ hx
        have h2 : x.key ∈ (e.key :: post.map Event.key) := by simp [h, hk]
        exact hnd2.2.2 h1 h2
      rw [filter_snoc_neg _ _ _ (by simp [hkc, Ne.symm hne])]
      exact inv.changes x (by simp [hst, hx])
    · rcases List.mem_cons.1 hx with rfl | hx
      · have h0 := inv.changes e (by simp [hst])
        have hk2 : Event.key { e with changes := e.changes ++ [c] } = r.key := by
          simpa [Event.key] using hk
        rw [filter_snoc_pos _ _ _ (by simp [hkc, hk2])]
        simp only [hk2]
        rw [hk] at h0
        simp [h0]
      · have hne : x.key ≠ r.key := by
          intro h
          have h1 : x.key ∈ post.map Event.key := List.mem_map_of_mem _ hx
          rw [h, ← hk] at h1
          exact hnd3.1 h1
        rw [filter_snoc_neg _ _ _ (by simp [hkc, Ne.symm hne])]
        exact inv.changes x (by simp [hst, hx])
  · intro c1 hc1 k hk1
    rw [hkeys]
    rcases List.mem_append.1 hc1 with h | h
    · exact inv.covered c1 h k hk1
    · have e1 : c1 = c := by simpa using h
      subst e1
      rw [hkc] at hk1
      have e2 : k = r.key := by simpa using hk1.symm
      subst e2
      rw [hst, ← hk]
      simp
  · intro x hx
    rcases List.mem_append.1 hx with hx | hx
    · exact inv.origin x (by simp [hst, hx])
    · rcases List.mem_cons.1 hx with rfl | hx
      · obtain ⟨r0, hr0, he0⟩ := inv.origin e (by simp [hst])
        refine ⟨r0, hr0, ?_⟩
        rw [he0]
      · exact inv.origin x (by simp [hst, hx])

theorem TrigInv_new {table : List Event} {d : List Change} {st : Events} {c : Change}
    {r : Event} (inv : TrigInv table d st) (hc : firstMatch table c = some r)
    (hall : ∀ x ∈ st, x.key ≠ r.key) :
    TrigInv table (d ++ [c]) (st ++ [{ r with changes := [c] }]) := by
  have hkc : keyOf table c = some r.key := keyOf_of_firstMatch hc
  have hnew : Event.key { r with changes := [c] } = r.key := rfl
  have hnotin : r.key ∉ st.map Event.key := by
    intro h
    obtain ⟨x, hx, hxk⟩ := List.mem_map.1 h
    exact hall x hx hxk
  refine ⟨?_, ?_, ?_, ?_⟩
  · rw [List.map_append, List.map_cons, List.map_nil, hnew]
    refine List.nodup_append.2 ⟨inv.nodup, by simp, ?_⟩
    intro k hk1 hk2
    have e1 : k = r.key := by simpa using hk2
    subst e1
    exact hnotin hk1
  · intro x hx
    rcases List.mem_append.1 hx with hx | hx
    · have hne : x.key ≠ r.key := hall x hx
      rw [filter_snoc_neg _ _ _ (by simp [hkc, Ne.symm hne])]
      exact inv.changes x hx
    · have e1 : x = { r with changes := [c] } := by simpa using hx
      subst e1
      rw [filter_snoc_pos _ _ _ (by simp [hkc, hnew])]
      have hnone : d.filter (fun c1 => decide (keyOf table c1 =
          some (Event.key { r with changes := [c] }))) = [] := by
        rw [List.filter_eq_nil_iff]
        intro c1 hc1 hdec
        have h1 : keyOf table c1 = some r.key := by simpa [hnew] using hdec
        exact hnotin (inv.covered c1 hc1 _ h1)
      rw [hnone]
      rfl
  · intro c1 hc1 k hk1
    rw [List.map_append, List.map_cons, List.map_nil, hnew]
    rcases List.mem_append.1 hc1 with h | h
    · exact List.mem_append_left _ (inv.covered c1 h k hk1)
    · have e1 : c1 = c := by simpa using h
      subst e1
      rw [hkc] at hk1
      have e2 : k = r.key := by simpa using hk1.symm
      subst e2
      simp
  · intro x hx
    rcases List.mem_append.1 hx with hx | hx
    · exact inv.origin x hx
    · have e1 : x = { r with changes := [c] } := by simpa using hx
      subst e1
      exact ⟨r, firstMatch_mem hc, rfl⟩

theorem TrigInv_step {table : List Event} {d : List Change} {st : Events} (c : Change)
    (inv : TrigInv table d st) : TrigInv table (d ++ [c]) (classify table st c) := by
  unfold classify
  cases hc : firstMatch table c with
  | none => exact TrigInv_skip inv hc
  | some r =>
    show TrigInv table (d ++ [c]) (Events.Add st r c)
    rcases Add_cases st r c with ⟨pre, e, post, hst, hk, _, hadd⟩ | ⟨hall, hadd⟩
    · rw [hadd]
      exact TrigInv_fold inv hc hst hk
    · rw [hadd]
      exact TrigInv_new inv hc hall

theorem TrigInv_foldl (table : List Event) (d : List Change) :
    TrigInv table d (d.foldl (classify table) []) := by
  induction d using List.reverseRecOn with
  | nil => exact TrigInv_nil table
  | append_singleton d c ih =>
    rw [List.foldl_append]
    exact TrigInv_step c ih

theorem TrigInv_run (table : List Event) (diff : DiffNode) :
    TrigInv table diff (TriggerEventsF diff table Events.Add []) :=
  TrigInv_foldl table diff

theorem triggerEvents_eq (diff : DiffNode) (a : ApplyAction) :
    triggerEvents diff a =
      if ConflictingChanges diff (events a) = [] then
        TriggerEventsF diff (events a) Events.Add []
      else
        TriggerEventsF diff (events a) Events.Add [] ++
          [disallowed (ConflictingChanges diff (events a))] := by
  unfold triggerEvents disallowed
  by_cases h : ConflictingChanges diff (events a) = []
  · simp [h]
  · have hpos : 0 < (ConflictingChanges diff (events a)).length :=
      List.length_pos.2 h
    simp [h, hpos]

theorem Add_changes_perm (es : Events) (event : Event) (c : Change) :
    List.Perm ((Events.Add es event c).flatMap (fun e => e.changes))
      (es.flatMap (fun e => e.changes) ++ [c]) := by
  induction es with
  | nil => simp [Events.Add]
  | cons e es ih =>
    by_cases hk : e.action = event.action ∧ e.path = event.path
    · simp only [Events.Add, hk, and_self, if_true, List.flatMap_cons, List.append_assoc]
      exact List.Perm.append_left _ List.perm_append_comm
    · simp only [Events.Add, hk, if_false, List.flatMap_cons, List.append_assoc]
      exact List.Perm.append_left _ ih

theorem foldl_classify_changes_perm (table : List Event) (d : List Change) (st : Events) :
    List.Perm ((d.foldl (classify table) st).flatMap (fun e => e.changes))
      (st.flatMap (fun e => e.changes) ++ d.filter (fun c => (firstMatch table c).isSome)) := by
  induction d generalizing st with
  | nil => simp
  | cons c cs ih =>
    rw [List.foldl_cons]
    refine (ih (classify table st c)).trans ?_
    cases hc : firstMatch table c with
    | none => simp [classify, hc, List.filter_cons]
    | some r =>
      have h1 : classify table st c = Events.Add st r c := by simp [classify, hc]
      rw [h1, List.filter_cons]
      simp only [hc, Option.isSome_some, if_true]
      refine (List.Perm.append_right _ (Add_changes_perm st r c)).trans ?_
      simp

/-- Every change of the diff occurs exactly once over the change lists of the
events returned by `triggerEvents`: their concatenation is a permutation of
the diff. -/
theorem triggerEvents_changes_perm (diff : DiffNode) (a : ApplyAction) :
    List.Perm ((triggerEvents diff a).flatMap (fun e => e.changes)) diff := by
  have h := foldl_classify_changes_perm (events a) diff []
  rw [← TriggerEventsF_eq_foldl] at h
  have hcc : ConflictingChanges diff (events a) =
      diff.filter (fun c => !(firstMatch (events a) c).isSome) := by
    unfold ConflictingChanges
    congr 1
    funext c
    cases firstMatch (events a) c <;> rfl
  have hperm : List.Perm
      ((TriggerEventsF diff (events a) Events.Add []).flatMap (fun e => e.changes) ++
        ConflictingChanges diff (events a)) diff := by
    rw [hcc]
    refine (List.Perm.append_right _ h).trans ?_
    simpa using List.filter_append_perm (fun c => (firstMatch (events a) c).isSome) diff
  rw [triggerEvents_eq]
  split
  · next h0 => simpa [h0] using hperm
  · simpa [disallowed] using hperm

theorem events_create : events env.CREATE = ModifyEvents := by
  simp [events, env.CREATE]

theorem events_scale : events env.SCALE = ScaleEvents := by
  simp [events, env.SCALE, env.CREATE]

theorem events_upgrade : events env.UPGRADE = UpgradeEvents := by
  simp [events, env.UPGRADE, env.SCALE, env.CREATE]

theorem events_other (a : ApplyAction) (h1 : a ≠ env.CREATE) (h2 : a ≠ env.SCALE)
    (h3 : a ≠ env.UPGRADE) : events a = [] := by
  simp [events, h1, h2, h3]

/-! ## Aggregation under action `create` -/

/-- C1. Evaluation at the diff `[MODIFY Cluster.Nodes.Worker.Instances.w1.Host,
MODIFY Kubernetes.Version]` under action `create`: the first rule matching the
version change has type `BLOCK`, yet `triggerEvents` returns a single event of
type `OK` holding both changes, no event of type `BLOCK`, and `Errors()` is
empty. -/
theorem create_version_change_not_blocked :
    (firstMatch ModifyEvents ⟨"Kubernetes.Version", ActionType.MODIFY, "v1.27.5", "v1.28.6"⟩).map
        (fun r => r.eType) = some EventType.BLOCK ∧
    (triggerEvents
        [⟨"Cluster.Nodes.Worker.Instances.w1.Host", ActionType.MODIFY, "host1", "host2"⟩,
         ⟨"Kubernetes.Version", ActionType.MODIFY, "v1.27.5", "v1.28.6"⟩]
        env.CREATE).map (fun e => (e.eType, e.changes.map (fun c => c.Path))) =
      [(EventType.OK, ["Cluster.Nodes.Worker.Instances.w1.Host", "Kubernetes.Version"])] ∧
    Events.OfType (triggerEvents
        [⟨"Cluster.Nodes.Worker.Instances.w1.Host", ActionType.MODIFY, "host1", "host2"⟩,
         ⟨"Kubernetes.Version", ActionType.MODIFY, "v1.27.5", "v1.28.6"⟩]
        env.CREATE) EventType.BLOCK = [] ∧
    Events.Errors (triggerEvents
        [⟨"Cluster.Nodes.Worker.Instances.w1.Host", ActionType.MODIFY, "host1", "host2"⟩,
         ⟨"Kubernetes.Version", ActionType.MODIFY, "v1.27.5", "v1.28.6"⟩]
        env.CREATE) = [] := by
  decide

/-- C2. Evaluation at the diff `[MODIFY
Cluster.Nodes.Worker.Instances.w1.CPU, MODIFY
Cluster.Nodes.Worker.Instances.w1.DataDisks.d1.Size]` (the order of the fields
`CPU` and `DataDisks` in `WorkerInstance`) under action `create`: the two
changes are matched by two different rules (the physical sizing `BLOCK` rule 9
and the data-disk `WARN` rule 11), which differ in type and message, yet
`triggerEvents` returns one single event, carrying the type and message of the
sizing rule, that holds both changes. -/
theorem create_changes_of_two_rules_share_event :
    firstMatch ModifyEvents
        ⟨"Cluster.Nodes.Worker.Instances.w1.CPU", ActionType.MODIFY, "2", "4"⟩
      = ModifyEvents[9]? ∧
    firstMatch ModifyEvents
        ⟨"Cluster.Nodes.Worker.Instances.w1.DataDisks.d1.Size", ActionType.MODIFY, "10", "20"⟩
      = ModifyEvents[11]? ∧
    (ModifyEvents[9]?.map (fun r => (r.eType, r.msg)) ≠
      ModifyEvents[11]?.map (fun r => (r.eType, r.msg))) ∧
    (ModifyEvents[11]?.map (fun r => (r.eType, r.msg)) =
      some (EventType.WARN,
        "Changing data disk properties, will recreate the disk (removing all of its content in the process).")) ∧
    (triggerEvents
        [⟨"Cluster.Nodes.Worker.Instances.w1.CPU", ActionType.MODIFY, "2", "4"⟩,
         ⟨"Cluster.Nodes.Worker.Instances.w1.DataDisks.d1.Size", ActionType.MODIFY, "10", "20"⟩]
        env.CREATE).map (fun e => (e.eType, e.msg, e.changes.map (fun c => c.Path))) =
      [(EventType.BLOCK,
        "Changing any physical properties of nodes (cpu, ram, mainDiskSize) is not allowed. Such action will recreate the node.",
        ["Cluster.Nodes.Worker.Instances.w1.CPU",
         "Cluster.Nodes.Worker.Instances.w1.DataDisks.d1.Size"])] := by
  decide

/-- C4. Evaluation at the diff `[MODIFY Cluster.Nodes.Worker.Default.CPU,
MODIFY Cluster.Nodes.Master.Instances.m1.Host]` under action `create`: the
first rule matching the second change is the `OK` rule for node properties
(rule 15 of the table), yet the change is held by the event of rule 8 (the
`BLOCK` rule for default physical properties) and the result has no event of
rule 15. -/
theorem create_change_held_by_event_of_other_rule :
    firstMatch ModifyEvents
        ⟨"Cluster.Nodes.Master.Instances.m1.Host", ActionType.MODIFY, "host1", "host2"⟩
      = ModifyEvents[15]? ∧
    (triggerEvents
        [⟨"Cluster.Nodes.Worker.Default.CPU", ActionType.MODIFY, "2", "4"⟩,
         ⟨"Cluster.Nodes.Master.Instances.m1.Host", ActionType.MODIFY, "host1", "host2"⟩]
        env.CREATE).map (fun e => some { e with changes := [] }) = [ModifyEvents[8]?] ∧
    (triggerEvents
        [⟨"Cluster.Nodes.Worker.Default.CPU", ActionType.MODIFY, "2", "4"⟩,
         ⟨"Cluster.Nodes.Master.Instances.m1.Host", ActionType.MODIFY, "host1", "host2"⟩]
        env.CREATE).map (fun e => (e.eType, e.changes.map (fun c => c.Path))) =
      [(EventType.BLOCK,
        ["Cluster.Nodes.Worker.Default.CPU", "Cluster.Nodes.Master.Instances.m1.Host"])] := by
  decide

theorem not_mem_ConflictingChanges {table : List Event} {diff : DiffNode} {c : Change}
    {r : Event} (h : firstMatch table c = some r) : c ∉ ConflictingChanges diff table := by
  intro hc
  have h2 := (List.mem_filter.1 hc).2
  simp [h] at h2

/-- C3. Two changes matched by the same rule of the active table, the first
before the second in the diff, are both held, in diff order, by the change
list of one single event of the result of `triggerEvents`, and by no other
event of the result. -/
theorem triggerEvents_same_rule_single_event (diff : DiffNode) (a : ApplyAction)
    (c1 c2 : Change) (r : Event) (hsub : List.Sublist [c1, c2] diff)
    (h1 : firstMatch (events a) c1 = some r) (h2 : firstMatch (events a) c2 = some r) :
    ∃ pre e post, triggerEvents diff a = pre ++ e :: post ∧
      List.Sublist [c1, c2] e.changes ∧ List.Sublist e.changes diff ∧
      ∀ x ∈ pre ++ post, c1 ∉ x.changes ∧ c2 ∉ x.changes := by
  have inv := TrigInv_run (events a) diff
  have hk1 := keyOf_of_firstMatch h1
  have hk2 := keyOf_of_firstMatch h2
  have hc1 : c1 ∈ diff := hsub.subset (by simp)
  obtain ⟨e, he, hek⟩ := List.mem_map.1 (inv.covered c1 hc1 _ hk1)
  obtain ⟨pre, post, hst⟩ := List.append_of_mem he
  have hch := inv.changes e he
  have hnd := inv.nodup
  rw [hst] at hnd
  simp only [List.map_append, List.map_cons] at hnd
  have hnd2 := List.nodup_append.1 hnd
  have hnd3 := List.nodup_cons.1 hnd2.2.1
  have hother : ∀ x ∈ pre ++ post, c1 ∉ x.changes ∧ c2 ∉ x.changes := by
    intro x hx
    have hxst : x ∈ TriggerEventsF diff (events a) Events.Add [] := by
      rw [hst]
      rcases List.mem_append.1 hx with h | h
      · exact List.mem_append_left _ h
      · exact List.mem_append_right _ (List.mem_cons_of_mem _ h)
    have hne : x.key ≠ r.key := by
      intro h
      rcases List.mem_append.1 hx with hx | hx
      · have m1 : x.key ∈ pre.map Event.key := List.mem_map_of_mem _ hx
        have m2 : x.key ∈ (e.key :: post.map Event.key) := by simp [h, hek]
        exact hnd2.2.2 m1 m2
      · have m1 : x.key ∈ post.map Event.key := List.mem_map_of_mem _ hx
        rw [h, ← hek] at m1
        exact hnd3.1 m1
    have hxch := inv.changes x hxst
    constructor
    · intro hm
      rw [hxch] at hm
      have := (List.mem_filter.1 hm).2
      rw [hk1] at this
      exact hne (Eq.symm (by simpa using this))
    · intro hm
      rw [hxch] at hm
      have := (List.mem_filter.1 hm).2
      rw [hk2] at this
      exact hne (Eq.symm (by simpa using this))
  have hsub2 : List.Sublist [c1, c2] e.changes := by
    rw [hch]
    have hf := hsub.filter (fun c => decide (keyOf (events a) c = some e.key))
    simpa [hk1, hk2, hek] using hf
  have hsub3 : List.Sublist e.changes diff := by
    rw [hch]
    exact List.filter_sublist _
  rw [triggerEvents_eq]
  split
  · exact ⟨pre, e, post, hst, hsub2, hsub3, hother⟩
  · refine ⟨pre, e, post ++ [disallowed (ConflictingChanges diff (events a))], ?_, hsub2,
      hsub3, ?_⟩
    · rw [hst]; simp
    · intro x hx
      rw [← List.append_assoc] at hx
      rcases List.mem_append.1 hx with h | h
      · exact hother x h
      · have e1 : x = disallowed (ConflictingChanges diff (events a)) := by simpa using h
        subst e1
        exact ⟨not_mem_ConflictingChanges h1, not_mem_ConflictingChanges h2⟩

theorem triggerEvents_same_rule_single_event_witness :
    List.Sublist
      [(⟨"Cluster.Nodes.Worker.Instances.w1.CPU", ActionType.MODIFY, "2", "4"⟩ : Change),
       ⟨"Cluster.Nodes.Worker.Instances.w2.CPU", ActionType.MODIFY, "2", "4"⟩]
      [⟨"Cluster.Nodes.Worker.Instances.w1.CPU", ActionType.MODIFY, "2", "4"⟩,
       ⟨"Cluster.Nodes.Worker.Instances.w2.CPU", ActionType.MODIFY, "2", "4"⟩] ∧
    firstMatch (events env.CREATE)
      ⟨"Cluster.Nodes.Worker.Instances.w1.CPU", ActionType.MODIFY, "2", "4"⟩ =
        some (ModifyEvents.get ⟨9, by decide⟩) ∧
    firstMatch (events env.CREATE)
      ⟨"Cluster.Nodes.Worker.Instances.w2.CPU", ActionType.MODIFY, "2", "4"⟩ =
        some (ModifyEvents.get ⟨9, by decide⟩) ∧
    ∃ pre e post,
      triggerEvents
        [⟨"Cluster.Nodes.Worker.Instances.w1.CPU", ActionType.MODIFY, "2", "4"⟩,
         ⟨"Cluster.Nodes.Worker.Instances.w2.CPU", ActionType.MODIFY, "2", "4"⟩]
        env.CREATE = pre ++ e :: post ∧
      List.Sublist
        [(⟨"Cluster.Nodes.Worker.Instances.w1.CPU", ActionType.MODIFY, "2", "4"⟩ : Change),
         ⟨"Cluster.Nodes.Worker.Instances.w2.CPU", ActionType.MODIFY, "2", "4"⟩] e.changes ∧
      List.Sublist e.changes
        [⟨"Cluster.Nodes.Worker.Instances.w1.CPU", ActionType.MODIFY, "2", "4"⟩,
         ⟨"Cluster.Nodes.Worker.Instances.w2.CPU", ActionType.MODIFY, "2", "4"⟩] ∧
      ∀ x ∈ pre ++ post,
        (⟨"Cluster.Nodes.Worker.Instances.w1.CPU", ActionType.MODIFY, "2", "4"⟩ : Change) ∉
          x.changes ∧
        (⟨"Cluster.Nodes.Worker.Instances.w2.CPU", ActionType.MODIFY, "2", "4"⟩ : Change) ∉
          x.changes :=
  ⟨List.Sublist.refl _, by decide, by decide,
    triggerEvents_same_rule_single_event _ env.CREATE _ _ (ModifyEvents.get ⟨9, by decide⟩)
      (List.Sublist.refl _) (by decide) (by decide)⟩

/-! ## Default deny -/

theorem isNone_firstMatch (table : List Event) (c : Change) :
    (firstMatch table c).isNone = table.all (fun r => !ruleMatches r c) := by
  unfold firstMatch
  induction table with
  | nil => simp
  | cons r rs ih =>
    cases h : ruleMatches r c <;> simp [List.find?, h, ih]

theorem ConflictingChanges_eq (diff : DiffNode) (table : List Event) :
    ConflictingChanges diff table =
      diff.filter (fun c => table.all (fun r => !ruleMatches r c)) := by
  unfold ConflictingChanges
  congr 1
  funext c
  exact isNone_firstMatch table c

theorem events_msg_ne (a : ApplyAction) :
    ∀ r ∈ events a, r.msg ≠ "Disallowed changes." := by
  unfold events
  split
  · decide
  · split
    · decide
    · split
      · decide
      · simp

theorem run_msg_ne (diff : DiffNode) (a : ApplyAction) :
    ∀ x ∈ TriggerEventsF diff (events a) Events.Add [], x.msg ≠ "Disallowed changes." := by
  intro x hx
  obtain ⟨r, hr, hxr⟩ := (TrigInv_run (events a) diff).origin x hx
  rw [hxr]
  exact events_msg_ne a r hr

/-- C5. Default deny. When at least one change of the diff is matched by no
rule of the active table, the result of `triggerEvents` ends with an event of
type `BLOCK` and message "Disallowed changes." whose change list is exactly
the list of the unmatched changes in diff order, and no other event of the
result has that type and message; when every change is matched by some rule,
no event of the result has that type and message. -/
theorem triggerEvents_default_deny (diff : DiffNode) (a : ApplyAction) :
    ((∃ c ∈ diff, ∀ r ∈ events a, ruleMatches r c = false) →
      ∃ pre e, triggerEvents diff a = pre ++ [e] ∧
        e.eType = EventType.BLOCK ∧ e.msg = "Disallowed changes." ∧
        e.changes = diff.filter (fun c => (events a).all (fun r => !ruleMatches r c)) ∧
        ∀ x ∈ pre, ¬ (x.eType = EventType.BLOCK ∧ x.msg = "Disallowed changes.")) ∧
    ((¬ ∃ c ∈ diff, ∀ r ∈ events a, ruleMatches r c = false) →
      ∀ x ∈ triggerEvents diff a,
        ¬ (x.eType = EventType.BLOCK ∧ x.msg = "Disallowed changes.")) := by
  have hne : (∃ c ∈ diff, ∀ r ∈ events a, ruleMatches r c = false) ↔
      ConflictingChanges diff (events a) ≠ [] := by
    rw [ConflictingChanges_eq, Ne, List.filter_eq_nil_iff]
    simp
  rw [triggerEvents_eq]
  constructor
  · intro h
    rw [if_neg (hne.1 h)]
    refine ⟨_, _, rfl, rfl, rfl, ?_, ?_⟩
    · exact ConflictingChanges_eq diff (events a)
    · intro x hx hx2
      exact run_msg_ne diff a x hx hx2.2
  · intro h
    have h0 : ConflictingChanges diff (events a) = [] := by
      by_contra hc
      exact h (hne.2 hc)
    rw [if_pos h0]
    intro x hx hx2
    exact run_msg_ne diff a x hx hx2.2

theorem triggerEvents_default_deny_witness :
    (∃ pre e,
      triggerEvents [⟨"Cluster.Network.CIDR", ActionType.MODIFY, "a", "b"⟩] env.UPGRADE =
        pre ++ [e] ∧
      e.eType = EventType.BLOCK ∧ e.msg = "Disallowed changes." ∧
      e.changes =
        List.filter (fun c => (events env.UPGRADE).all (fun r => !ruleMatches r c))
          [⟨"Cluster.Network.CIDR", ActionType.MODIFY, "a", "b"⟩] ∧
      ∀ x ∈ pre, ¬ (x.eType = EventType.BLOCK ∧ x.msg = "Disallowed changes.")) ∧
    (∀ x ∈ triggerEvents [⟨"Kubernetes.Version", ActionType.MODIFY, "a", "b"⟩] env.UPGRADE,
      ¬ (x.eType = EventType.BLOCK ∧ x.msg = "Disallowed changes.")) :=
  ⟨(triggerEvents_default_deny [⟨"Cluster.Network.CIDR", ActionType.MODIFY, "a", "b"⟩]
      env.UPGRADE).1 (by decide),
   (triggerEvents_default_deny [⟨"Kubernetes.Version", ActionType.MODIFY, "a", "b"⟩]
      env.UPGRADE).2 (by decide)⟩

theorem foldl_classify_nil (diff : List Change) (st : Events) :
    diff.foldl (classify []) st = st := by
  induction diff generalizing st with
  | nil => rfl
  | cons c cs ih => simpa [List.foldl, classify, firstMatch] using ih st

/-- C6. Fail closed on an unknown action. For an action other than `create`,
`scale` and `upgrade` the table `events(a)` is empty and `triggerEvents` on a
non-empty diff returns exactly one event, of type `BLOCK` with message
"Disallowed changes.", holding every change of the diff; for `create`,
`scale` and `upgrade` the table is `ModifyEvents`, `ScaleEvents` and
`UpgradeEvents`. -/
theorem events_fail_closed (a : ApplyAction) (diff : DiffNode)
    (h1 : a ≠ env.CREATE) (h2 : a ≠ env.SCALE) (h3 : a ≠ env.UPGRADE) (hd : diff ≠ []) :
    events a = [] ∧
    triggerEvents diff a =
      [{ eType := EventType.BLOCK, msg := "Disallowed changes.", changes := diff }] ∧
    events env.CREATE = ModifyEvents ∧ events env.SCALE = ScaleEvents ∧
    events env.UPGRADE = UpgradeEvents := by
  have he := events_other a h1 h2 h3
  refine ⟨he, ?_, events_create, events_scale, events_upgrade⟩
  have hcc : ConflictingChanges diff [] = diff := by
    simp [ConflictingChanges, firstMatch]
  rw [triggerEvents_eq, he, hcc, if_neg hd, TriggerEventsF_eq_foldl, foldl_classify_nil]
  rfl

theorem events_fail_closed_witness :
    ("destroy" : ApplyAction) ≠ env.CREATE ∧ ("destroy" : ApplyAction) ≠ env.SCALE ∧
    ("destroy" : ApplyAction) ≠ env.UPGRADE ∧
    ([⟨"Addons.Rook.Enabled", ActionType.MODIFY, "false", "true"⟩] : DiffNode) ≠ [] ∧
    (events "destroy" = [] ∧
      triggerEvents [⟨"Addons.Rook.Enabled", ActionType.MODIFY, "false", "true"⟩] "destroy" =
        [{ eType := EventType.BLOCK, msg := "Disallowed changes.",
           changes := [⟨"Addons.Rook.Enabled", ActionType.MODIFY, "false", "true"⟩] }] ∧
      events env.CREATE = ModifyEvents ∧ events env.SCALE = ScaleEvents ∧
      events env.UPGRADE = UpgradeEvents) :=
  ⟨by decide, by decide, by decide, by decide,
    events_fail_closed "destroy" [⟨"Addons.Rook.Enabled", ActionType.MODIFY, "false", "true"⟩]
      (by decide) (by decide) (by decide) (by decide)⟩

/-! ## Node instances: actions `create` and `scale` -/

theorem workerInstance_segments (id : String) :
    ∃ s ss, splitDots ("Cluster.Nodes.Worker.Instances." ++ id).data =
      "Cluster".data :: "Nodes".data :: "Worker".data :: "Instances".data :: s :: ss := by
  obtain ⟨s, ss, h⟩ := splitDots_exists_cons id.data
  refine ⟨s, ss, ?_⟩
  have e : ("Cluster.Nodes.Worker.Instances." ++ id).data =
      "Cluster".data ++ '.' :: ("Nodes".data ++ '.' :: ("Worker".data ++ '.' ::
        ("Instances".data ++ '.' :: id.data))) := by
    simp [String.data_append]
  rw [e, splitDots_segment _ _ (by decide), splitDots_segment _ _ (by decide),
    splitDots_segment _ _ (by decide), splitDots_segment _ _ (by decide), h]

theorem firstMatch_create_delete_worker (id v w : String) :
    firstMatch ModifyEvents ⟨"Cluster.Nodes.Worker.Instances." ++ id, ActionType.DELETE, v, w⟩ =
      ModifyEvents[6]? := by
  obtain ⟨s, ss, h⟩ := workerInstance_segments id
  rw [firstMatch_segs _ _ _ h]
  simp [ModifyEvents, List.find?, Event.Paths_eq, splitDots, matchSegments]

theorem firstMatch_create_create_worker (id v w : String) :
    firstMatch ModifyEvents ⟨"Cluster.Nodes.Worker.Instances." ++ id, ActionType.CREATE, v, w⟩ =
      ModifyEvents[7]? := by
  obtain ⟨s, ss, h⟩ := workerInstance_segments id
  rw [firstMatch_segs _ _ _ h]
  simp [ModifyEvents, List.find?, Event.Paths_eq, splitDots, matchSegments]

theorem firstMatch_scale_delete_worker (id v w : String) :
    firstMatch ScaleEvents ⟨"Cluster.Nodes.Worker.Instances." ++ id, ActionType.DELETE, v, w⟩ =
      ScaleEvents[0]? := by
  obtain ⟨s, ss, h⟩ := workerInstance_segments id
  rw [firstMatch_segs _ _ _ h]
  simp [ScaleEvents, List.find?, Event.Paths_eq, splitDots, matchSegments]

theorem firstMatch_scale_create_worker (id v w : String) :
    firstMatch ScaleEvents ⟨"Cluster.Nodes.Worker.Instances." ++ id, ActionType.CREATE, v, w⟩ =
      ScaleEvents[1]? := by
  obtain ⟨s, ss, h⟩ := workerInstance_segments id
  rw [firstMatch_segs _ _ _ h]
  simp [ScaleEvents, List.find?, Event.Paths_eq, splitDots, matchSegments]

theorem triggerEvents_single (c : Change) (a : ApplyAction) (r : Event)
    (h : firstMatch (events a) c = some r) :
    triggerEvents [c] a = [{ r with changes := [c] }] := by
  simp [triggerEvents, TriggerEventsF, ConflictingChanges, h, Events.Add]

theorem triggerEvents_pair (c1 c2 : Change) (a : ApplyAction) (r1 r2 : Event)
    (h1 : firstMatch (events a) c1 = some r1) (h2 : firstMatch (events a) c2 = some r2)
    (hk : ¬ (r1.action = r2.action ∧ r1.path = r2.path)) :
    triggerEvents [c1, c2] a = [{ r1 with changes := [c1] }, { r2 with changes := [c2] }] := by
  simp [triggerEvents, TriggerEventsF, ConflictingChanges, h1, h2, Events.Add, hk]

/-- C8. Action-scoped classification. For every instance identifier, the diff
made of the single `DELETE` change at `Cluster.Nodes.Worker.Instances.<id>`
yields under action `create` exactly one event, of type `BLOCK` with the
message redirecting to `--action scale`, and under action `scale` exactly one
event, of type `SCALE_DOWN`; in both cases the event holds exactly that
change. -/
theorem delete_worker_instance_action_scoped (id v w : String) :
    (∃ e,
      triggerEvents [⟨"Cluster.Nodes.Worker.Instances." ++ id, ActionType.DELETE, v, w⟩]
        env.CREATE = [e] ∧
      e.eType = EventType.BLOCK ∧
      e.msg = "To remove existing nodes run apply command with '--action scale' flag." ∧
      e.changes = [⟨"Cluster.Nodes.Worker.Instances." ++ id, ActionType.DELETE, v, w⟩]) ∧
    (∃ e,
      triggerEvents [⟨"Cluster.Nodes.Worker.Instances." ++ id, ActionType.DELETE, v, w⟩]
        env.SCALE = [e] ∧
      e.eType = EventType.SCALE_DOWN ∧
      e.changes = [⟨"Cluster.Nodes.Worker.Instances." ++ id, ActionType.DELETE, v, w⟩]) := by
  have hc := triggerEvents_single
    ⟨"Cluster.Nodes.Worker.Instances." ++ id, ActionType.DELETE, v, w⟩ env.CREATE
    (ModifyEvents.get ⟨6, by decide⟩)
    (by rw [events_create, firstMatch_create_delete_worker]; rfl)
  have hs := triggerEvents_single
    ⟨"Cluster.Nodes.Worker.Instances." ++ id, ActionType.DELETE, v, w⟩ env.SCALE
    (ScaleEvents.get ⟨0, by decide⟩)
    (by rw [events_scale, firstMatch_scale_delete_worker]; rfl)
  exact ⟨⟨_, hc, rfl, rfl, rfl⟩, ⟨_, hs, rfl, rfl⟩⟩

/-- C9. Scale scenario. For worker identifiers `x` and `y`, the diff `[DELETE
Cluster.Nodes.Worker.Instances.x, CREATE Cluster.Nodes.Worker.Instances.y]`
yields under action `scale` exactly the events `[SCALE_DOWN holding only the
DELETE, SCALE_UP holding only the CREATE]` with `Errors()` empty, and under
action `create` exactly two `BLOCK` events, one per change, with two blocking
entries in `Errors()`. It holds whether or not `x` and `y` differ. -/
theorem scale_scenario (x y v w v2 w2 : String) :
    (∃ e1 e2,
      triggerEvents
        [⟨"Cluster.Nodes.Worker.Instances." ++ x, ActionType.DELETE, v, w⟩,
         ⟨"Cluster.Nodes.Worker.Instances." ++ y, ActionType.CREATE, v2, w2⟩]
        env.SCALE = [e1, e2] ∧
      e1.eType = EventType.SCALE_DOWN ∧
      e1.changes = [⟨"Cluster.Nodes.Worker.Instances." ++ x, ActionType.DELETE, v, w⟩] ∧
      e2.eType = EventType.SCALE_UP ∧
      e2.changes = [⟨"Cluster.Nodes.Worker.Instances." ++ y, ActionType.CREATE, v2, w2⟩]) ∧
    Events.Errors (triggerEvents
        [⟨"Cluster.Nodes.Worker.Instances." ++ x, ActionType.DELETE, v, w⟩,
         ⟨"Cluster.Nodes.Worker.Instances." ++ y, ActionType.CREATE, v2, w2⟩]
        env.SCALE) = [] ∧
    (∃ e1 e2,
      triggerEvents
        [⟨"Cluster.Nodes.Worker.Instances." ++ x, ActionType.DELETE, v, w⟩,
         ⟨"Cluster.Nodes.Worker.Instances." ++ y, ActionType.CREATE, v2, w2⟩]
        env.CREATE = [e1, e2] ∧
      e1.eType = EventType.BLOCK ∧
      e1.changes = [⟨"Cluster.Nodes.Worker.Instances." ++ x, ActionType.DELETE, v, w⟩] ∧
      e2.eType = EventType.BLOCK ∧
      e2.changes = [⟨"Cluster.Nodes.Worker.Instances." ++ y, ActionType.CREATE, v2, w2⟩]) ∧
    Events.Errors (triggerEvents
        [⟨"Cluster.Nodes.Worker.Instances." ++ x, ActionType.DELETE, v, w⟩,
         ⟨"Cluster.Nodes.Worker.Instances." ++ y, ActionType.CREATE, v2, w2⟩]
        env.CREATE) =
      [ConfigChange.Error
          "To remove existing nodes run apply command with '--action scale' flag."
          ["Cluster.Nodes.Worker.Instances." ++ x],
       ConfigChange.Error "To add new nodes run apply command with '--action scale' flag."
          ["Cluster.Nodes.Worker.Instances." ++ y]] := by
  have hs := triggerEvents_pair
    ⟨"Cluster.Nodes.Worker.Instances." ++ x, ActionType.DELETE, v, w⟩
    ⟨"Cluster.Nodes.Worker.Instances." ++ y, ActionType.CREATE, v2, w2⟩ env.SCALE
    (ScaleEvents.get ⟨0, by decide⟩) (ScaleEvents.get ⟨1, by decide⟩)
    (by rw [events_scale, firstMatch_scale_delete_worker]; rfl)
    (by rw [events_scale, firstMatch_scale_create_worker]; rfl)
    (by decide)
  have hc := triggerEvents_pair
    ⟨"Cluster.Nodes.Worker.Instances." ++ x, ActionType.DELETE, v, w⟩
    ⟨"Cluster.Nodes.Worker.Instances." ++ y, ActionType.CREATE, v2, w2⟩ env.CREATE
    (ModifyEvents.get ⟨6, by decide⟩) (ModifyEvents.get ⟨7, by decide⟩)
    (by rw [events_create, firstMatch_create_delete_worker]; rfl)
    (by rw [events_create, firstMatch_create_create_worker]; rfl)
    (by decide)
  refine ⟨⟨_, _, hs, rfl, rfl, rfl, rfl⟩, ?_, ⟨_, _, hc, rfl, rfl, rfl, rfl⟩, ?_⟩
  · rw [hs]; rfl
  · rw [hc]; rfl

/-! ## `Events.Errors` and the empty diff -/

/-- C13. `Events.Errors()`: the result has exactly one entry per event of type
`WARN` or `BLOCK`, in event order, and none for the other types; the entry of
a `WARN` event is a warning, that of a `BLOCK` event an error, and each
carries the message of the event and the paths of all its changes in order.
Hence the result is empty exactly when the list has no `WARN` and no `BLOCK`
event. -/
theorem Events.Errors_contract (es : Events) :
    Events.Errors es =
      (es.filter (fun e =>
          decide (e.eType = EventType.WARN ∨ e.eType = EventType.BLOCK))).map
        (fun e =>
          if e.eType = EventType.WARN then
            ConfigChange.Warning e.msg (e.changes.map (fun c => c.Path))
          else ConfigChange.Error e.msg (e.changes.map (fun c => c.Path))) ∧
    (Events.Errors es = [] ↔
      ∀ e ∈ es, e.eType ≠ EventType.WARN ∧ e.eType ≠ EventType.BLOCK) := by
  induction es with
  | nil => simp [Events.Errors]
  | cons e es ih =>
    obtain ⟨ih1, _⟩ := ih
    cases ht : e.eType <;> simp [Events.Errors, ht, ih1, List.filter_cons]

/-- C14. Idempotence. For every apply action, recognised or not,
`triggerEvents` on a diff without changes returns the empty event list, so
`OfType(BLOCK)`, `OfType(WARN)` and `Errors()` of the result are empty. -/
theorem triggerEvents_empty_diff (a : ApplyAction) :
    triggerEvents [] a = [] ∧
    Events.OfType (triggerEvents [] a) EventType.BLOCK = [] ∧
    Events.OfType (triggerEvents [] a) EventType.WARN = [] ∧
    Events.Errors (triggerEvents [] a) = [] := by
  have h : triggerEvents [] a = [] := by
    simp [triggerEvents, TriggerEventsF, ConflictingChanges]
  rw [h]
  exact ⟨rfl, rfl, rfl, rfl⟩

/-! ## Key uniqueness of `Events.Add` -/

theorem pairwise_key_iff (es : Events) :
    es.Pairwise (fun x y => ¬ (x.action = y.action ∧ x.path = y.path)) ↔
      (es.map Event.key).Nodup := by
  unfold List.Nodup
  rw [List.pairwise_map]
  simp [Event.key]

theorem Add_keys_nodup (es : Events) (event : Event) (c : Change)
    (h : (es.map Event.key).Nodup) : ((Events.Add es event c).map Event.key).Nodup := by
  rcases Add_cases es event c with ⟨pre, e, post, hes, _, _, hadd⟩ | ⟨hall, hadd⟩
  · have hk : (Events.Add es event c).map Event.key = es.map Event.key := by
      rw [hadd, hes]
      simp [Event.key]
    rw [hk]
    exact h
  · rw [hadd, List.map_append, List.map_cons, List.map_nil]
    refine List.nodup_append.2 ⟨h, by simp, ?_⟩
    intro k hk1 hk2
    have e1 : k = Event.key { event with changes := [c] } := by simpa using hk2
    subst e1
    obtain ⟨x, hx, hxk⟩ := List.mem_map.1 hk1
    exact hall x hx hxk

theorem Add_changes_ne_nil (es : Events) (event : Event) (c : Change)
    (h : ∀ e ∈ es, e.changes ≠ []) : ∀ e ∈ Events.Add es event c, e.changes ≠ [] := by
  induction es with
  | nil => simp [Events.Add]
  | cons e es ih =>
    have he := h e (by simp)
    have hes : ∀ x ∈ es, x.changes ≠ [] := fun x hx => h x (by simp [hx])
    by_cases hk : e.action = event.action ∧ e.path = event.path
    · intro x hx
      simp only [Events.Add, hk, and_self, if_true, List.mem_cons] at hx
      rcases hx with rfl | hx
      · simp
      · exact hes x hx
    · intro x hx
      simp only [Events.Add, hk, if_false, List.mem_cons] at hx
      rcases hx with rfl | hx
      · exact he
      · exact ih hes x hx

theorem Add_changes_count (es : Events) (event : Event) (c : Change) :
    ((Events.Add es event c).map (fun e => e.changes.length)).sum =
      (es.map (fun e => e.changes.length)).sum + 1 := by
  induction es with
  | nil => simp [Events.Add]
  | cons e es ih =>
    by_cases hk : e.action = event.action ∧ e.path = event.path
    · simp only [Events.Add, hk, and_self, if_true, List.map_cons, List.sum_cons,
        List.length_append, List.length_singleton]
      omega
    · simp only [Events.Add, hk, if_false, List.map_cons, List.sum_cons, ih]
      omega

theorem addAll_snoc (calls : List (Event × Change)) (p : Event × Change) :
    addAll (calls ++ [p]) = Events.Add (addAll calls) p.1 p.2 := by
  simp [addAll, List.foldl_append]

theorem addAll_inv (calls : List (Event × Change)) :
    ((addAll calls).map Event.key).Nodup ∧ (∀ e ∈ addAll calls, e.changes ≠ []) ∧
      ((addAll calls).map (fun e => e.changes.length)).sum = calls.length := by
  induction calls using List.reverseRecOn with
  | nil => simp [addAll]
  | append_singleton calls p ih =>
    obtain ⟨h1, h2, h3⟩ := ih
    rw [addAll_snoc]
    refine ⟨Add_keys_nodup _ _ _ h1, Add_changes_ne_nil _ _ _ h2, ?_⟩
    rw [Add_changes_count, h3]
    simp

/-- C15. Key uniqueness of `Events.Add`. If no two events of a list share the
same `(action, path)` pair, the same holds after `Add(event, c)`. Hence in
every list built from the empty list by `Add` calls alone the `(action,
path)` pairs are pairwise distinct, every event has a non-empty change list,
and the total number of changes over all events equals the number of calls. -/
theorem Events.Add_key_unique (es : Events) (event : Event) (c : Change)
    (calls : List (Event × Change)) :
    (es.Pairwise (fun x y => ¬ (x.action = y.action ∧ x.path = y.path)) →
      (Events.Add es event c).Pairwise
        (fun x y => ¬ (x.action = y.action ∧ x.path = y.path))) ∧
    (addAll calls).Pairwise (fun x y => ¬ (x.action = y.action ∧ x.path = y.path)) ∧
    (∀ e ∈ addAll calls, e.changes ≠ []) ∧
    ((addAll calls).map (fun e => e.changes.length)).sum = calls.length := by
  obtain ⟨h1, h2, h3⟩ := addAll_inv calls
  refine ⟨?_, (pairwise_key_iff _).2 h1, h2, h3⟩
  intro h
  exact (pairwise_key_iff _).2 (Add_keys_nodup es event c ((pairwise_key_iff _).1 h))

theorem Events.Add_key_unique_witness :
    List.Pairwise (fun x y : Event => ¬ (x.action = y.action ∧ x.path = y.path))
      [{ eType := EventType.OK, path := "Hosts",
         changes := [⟨"Hosts.h1.Name", ActionType.MODIFY, "a", "b"⟩] }] ∧
    List.Pairwise (fun x y : Event => ¬ (x.action = y.action ∧ x.path = y.path))
      (Events.Add
        [{ eType := EventType.OK, path := "Hosts",
           changes := [⟨"Hosts.h1.Name", ActionType.MODIFY, "a", "b"⟩] }]
        { eType := EventType.OK, path := "Addons" }
        ⟨"Addons.Rook.Enabled", ActionType.MODIFY, "false", "true"⟩) ∧
    List.Pairwise (fun x y : Event => ¬ (x.action = y.action ∧ x.path = y.path))
      (addAll
        [({ eType := EventType.OK, path := "Hosts" },
          ⟨"Hosts.h1.Name", ActionType.MODIFY, "a", "b"⟩),
         ({ eType := EventType.OK, path := "Addons" },
          ⟨"Addons.Rook.Enabled", ActionType.MODIFY, "false", "true"⟩),
         ({ eType := EventType.OK, path := "Hosts" },
          ⟨"Hosts.h2.Name", ActionType.MODIFY, "c", "d"⟩)]) ∧
    (∀ e ∈ addAll
        [({ eType := EventType.OK, path := "Hosts" },
          ⟨"Hosts.h1.Name", ActionType.MODIFY, "a", "b"⟩),
         ({ eType := EventType.OK, path := "Addons" },
          ⟨"Addons.Rook.Enabled", ActionType.MODIFY, "false", "true"⟩),
         ({ eType := EventType.OK, path := "Hosts" },
          ⟨"Hosts.h2.Name", ActionType.MODIFY, "c", "d"⟩)], e.changes ≠ []) ∧
    ((addAll
        [({ eType := EventType.OK, path := "Hosts" },
          ⟨"Hosts.h1.Name", ActionType.MODIFY, "a", "b"⟩),
         ({ eType := EventType.OK, path := "Addons" },
          ⟨"Addons.Rook.Enabled", ActionType.MODIFY, "false", "true"⟩),
         ({ eType := EventType.OK, path := "Hosts" },
          ⟨"Hosts.h2.Name", ActionType.MODIFY, "c", "d"⟩)]).map
      (fun e => e.changes.length)).sum = 3 :=
  ⟨by decide,
   (Events.Add_key_unique
      [{ eType := EventType.OK, path := "Hosts",
         changes := [⟨"Hosts.h1.Name", ActionType.MODIFY, "a", "b"⟩] }]
      { eType := EventType.OK, path := "Addons" }
      ⟨"Addons.Rook.Enabled", ActionType.MODIFY, "false", "true"⟩
      [({ eType := EventType.OK, path := "Hosts" },
        ⟨"Hosts.h1.Name", ActionType.MODIFY, "a", "b"⟩),
       ({ eType := EventType.OK, path := "Addons" },
        ⟨"Addons.Rook.Enabled", ActionType.MODIFY, "false", "true"⟩),
       ({ eType := EventType.OK, path := "Hosts" },
        ⟨"Hosts.h2.Name", ActionType.MODIFY, "c", "d"⟩)]).1 (by decide),
   (Events.Add_key_unique
      [{ eType := EventType.OK, path := "Hosts",
         changes := [⟨"Hosts.h1.Name", ActionType.MODIFY, "a", "b"⟩] }]
      { eType := EventType.OK, path := "Addons" }
      ⟨"Addons.Rook.Enabled", ActionType.MODIFY, "false", "true"⟩
      [({ eType := EventType.OK, path := "Hosts" },
        ⟨"Hosts.h1.Name", ActionType.MODIFY, "a", "b"⟩),
       ({ eType := EventType.OK, path := "Addons" },
        ⟨"Addons.Rook.Enabled", ActionType.MODIFY, "false", "true"⟩),
       ({ eType := EventType.OK, path := "Hosts" },
        ⟨"Hosts.h2.Name", ActionType.MODIFY, "c", "d"⟩)]).2⟩

/-! ## Precedence among the host rules -/

theorem splitDots_inv (cs : List Char) :
    ∀ s ss, splitDots cs = s :: ss →
      (ss = [] ∧ cs = s) ∨ ∃ cs1, cs = s ++ '.' :: cs1 ∧ splitDots cs1 = ss := by
  induction cs with
  | nil =>
    intro s ss h
    simp only [splitDots, List.cons.injEq] at h
    exact Or.inl ⟨h.2.symm, h.1⟩
  | cons c cs ih =>
    intro s ss h
    by_cases hc : c = '.'
    · subst hc
      simp only [splitDots, if_true, List.cons.injEq] at h
      right
      exact ⟨cs, by simp [← h.1], h.2⟩
    · obtain ⟨s1, ss1, h1⟩ := splitDots_exists_cons cs
      simp only [splitDots, hc, if_false, h1, List.cons.injEq] at h
      obtain ⟨hs, hss⟩ := h
      subst hs
      subst hss
      rcases ih s1 ss1 h1 with ⟨e1, e2⟩ | ⟨cs1, e1, e2⟩
      · left
        exact ⟨e1, by rw [e2]⟩
      · right
        exact ⟨cs1, by rw [e1]; rfl, e2⟩

theorem matchSegments_last_inv (a cs : List Char) (ha : a ≠ ['*'])
    (h : matchSegments [a] (splitDots cs) = true) :
    cs = a ∨ ∃ rest, cs = a ++ '.' :: rest := by
  obtain ⟨s, ss, hs⟩ := splitDots_exists_cons cs
  rw [hs] at h
  have hsa : a = s := by
    simpa [matchSegments, ha] using h
  subst hsa
  rcases splitDots_inv cs a ss hs with ⟨_, e⟩ | ⟨cs1, e, _⟩
  · exact Or.inl e
  · exact Or.inr ⟨cs1, e⟩

theorem matchSegments_next_inv (a b : List Char) (ps : List (List Char)) (cs : List Char)
    (ha : a ≠ ['*']) (h : matchSegments (a :: b :: ps) (splitDots cs) = true) :
    ∃ cs1, cs = a ++ '.' :: cs1 ∧ matchSegments (b :: ps) (splitDots cs1) = true := by
  obtain ⟨s, ss, hs⟩ := splitDots_exists_cons cs
  rw [hs] at h
  have h2 : a = s ∧ matchSegments (b :: ps) ss = true := by
    simpa [matchSegments, ha] using h
  obtain ⟨hsa, hm⟩ := h2
  subst hsa
  rcases splitDots_inv cs a ss hs with ⟨e0, _⟩ | ⟨cs1, e, e2⟩
  · subst e0
    simp [matchSegments] at hm
  · exact ⟨cs1, e, by rw [e2]; exact hm⟩

theorem pathMatches_version_inv (p : String)
    (h : pathMatches "Kubernetes.Version" p = true) :
    p = "Kubernetes.Version" ∨ ∃ rest, p = "Kubernetes.Version." ++ rest := by
  have hpat : splitDots "Kubernetes.Version".data = ["Kubernetes".data, "Version".data] := by
    decide
  unfold pathMatches at h
  rw [hpat] at h
  obtain ⟨cs1, e1, h1⟩ := matchSegments_next_inv _ _ _ _ (by decide) h
  rcases matchSegments_last_inv _ _ (by decide) h1 with e2 | ⟨rest, e2⟩
  · left
    apply String.ext
    rw [e1, e2]
    rfl
  · right
    refine ⟨⟨rest⟩, ?_⟩
    apply String.ext
    rw [String.data_append, e1, e2]
    rfl

theorem pathMatches_kubespray_inv (p : String)
    (h : pathMatches "Kubernetes.Kubespray.Version" p = true) :
    p = "Kubernetes.Kubespray.Version" ∨
      ∃ rest, p = "Kubernetes.Kubespray.Version." ++ rest := by
  have hpat : splitDots "Kubernetes.Kubespray.Version".data =
      ["Kubernetes".data, "Kubespray".data, "Version".data] := by
    decide
  unfold pathMatches at h
  rw [hpat] at h
  obtain ⟨cs1, e1, h1⟩ := matchSegments_next_inv _ _ _ _ (by decide) h
  obtain ⟨cs2, e2, h2⟩ := matchSegments_next_inv _ _ _ _ (by decide) h1
  rcases matchSegments_last_inv _ _ (by decide) h2 with e3 | ⟨rest, e3⟩
  · left
    apply String.ext
    rw [e1, e2, e3]
    rfl
  · right
    refine ⟨⟨rest⟩, ?_⟩
    apply String.ext
    rw [String.data_append, e1, e2, e3]
    rfl

theorem firstMatch_upgrade_none (c : Change)
    (hv : ¬ (c.Path = "Kubernetes.Version" ∨ ∃ rest, c.Path = "Kubernetes.Version." ++ rest))
    (hk : ¬ (c.Path = "Kubernetes.Kubespray.Version" ∨
      ∃ rest, c.Path = "Kubernetes.Kubespray.Version." ++ rest)) :
    firstMatch UpgradeEvents c = none := by
  have h1 : pathMatches "Kubernetes.Version" c.Path = false := by
    cases h : pathMatches "Kubernetes.Version" c.Path with
    | false => rfl
    | true => exact absurd (pathMatches_version_inv _ h) hv
  have h2 : pathMatches "Kubernetes.Kubespray.Version" c.Path = false := by
    cases h : pathMatches "Kubernetes.Kubespray.Version" c.Path with
    | false => rfl
    | true => exact absurd (pathMatches_kubespray_inv _ h) hk
  simp [firstMatch, UpgradeEvents, List.find?, ruleMatches, Event.Paths_eq, Event.Action,
    h1, h2]

theorem firstMatch_upgrade_version (k : ActionType) (v w : String) :
    firstMatch UpgradeEvents ⟨"Kubernetes.Version", k, v, w⟩ = UpgradeEvents[0]? := by
  have hs : splitDots ("Kubernetes.Version" : String).data =
      ["Kubernetes".data, "Version".data] := by decide
  rw [firstMatch_segs _ ⟨"Kubernetes.Version", k, v, w⟩ _ hs]
  simp [UpgradeEvents, List.find?, Event.Paths_eq, splitDots, matchSegments]

theorem firstMatch_upgrade_kubespray (k : ActionType) (v w : String) :
    firstMatch UpgradeEvents ⟨"Kubernetes.Kubespray.Version", k, v, w⟩ =
      UpgradeEvents[1]? := by
  have hs : splitDots ("Kubernetes.Kubespray.Version" : String).data =
      ["Kubernetes".data, "Kubespray".data, "Version".data] := by decide
  rw [firstMatch_segs _ ⟨"Kubernetes.Kubespray.Version", k, v, w⟩ _ hs]
  simp [UpgradeEvents, List.find?, Event.Paths_eq, splitDots, matchSegments]

/-- C11. Upgrade table. Under action `upgrade` the diff made of a single
change (of any kind) at `Kubernetes.Version`, or at
`Kubernetes.Kubespray.Version`, yields exactly one event, of type `OK`, and
`Errors()` is empty; and in every diff, a change whose path is neither at nor
under one of these two fields is held by the "Disallowed changes." `BLOCK`
event that ends the result. -/
theorem upgrade_table (k : ActionType) (v w : String) (diff : DiffNode) (c : Change)
    (hc : c ∈ diff)
    (hv : ¬ (c.Path = "Kubernetes.Version" ∨ ∃ rest, c.Path = "Kubernetes.Version." ++ rest))
    (hk : ¬ (c.Path = "Kubernetes.Kubespray.Version" ∨
      ∃ rest, c.Path = "Kubernetes.Kubespray.Version." ++ rest)) :
    triggerEvents [⟨"Kubernetes.Version", k, v, w⟩] env.UPGRADE =
      [{ eType := EventType.OK, path := "Kubernetes.Version",
         changes := [⟨"Kubernetes.Version", k, v, w⟩] }] ∧
    Events.Errors (triggerEvents [⟨"Kubernetes.Version", k, v, w⟩] env.UPGRADE) = [] ∧
    triggerEvents [⟨"Kubernetes.Kubespray.Version", k, v, w⟩] env.UPGRADE =
      [{ eType := EventType.OK, path := "Kubernetes.Kubespray.Version",
         changes := [⟨"Kubernetes.Kubespray.Version", k, v, w⟩] }] ∧
    Events.Errors (triggerEvents [⟨"Kubernetes.Kubespray.Version", k, v, w⟩] env.UPGRADE) =
      [] ∧
    ∃ pre e, triggerEvents diff env.UPGRADE = pre ++ [e] ∧
      e.eType = EventType.BLOCK ∧ e.msg = "Disallowed changes." ∧ c ∈ e.changes := by
  have h1 := triggerEvents_single ⟨"Kubernetes.Version", k, v, w⟩ env.UPGRADE
    (UpgradeEvents.get ⟨0, by decide⟩)
    (by rw [events_upgrade, firstMatch_upgrade_version]; rfl)
  have h2 := triggerEvents_single ⟨"Kubernetes.Kubespray.Version", k, v, w⟩ env.UPGRADE
    (UpgradeEvents.get ⟨1, by decide⟩)
    (by rw [events_upgrade, firstMatch_upgrade_kubespray]; rfl)
  refine ⟨h1, by rw [h1]; rfl, h2, by rw [h2]; rfl, ?_⟩
  have hnone := firstMatch_upgrade_none c hv hk
  have hmem : c ∈ ConflictingChanges diff (events env.UPGRADE) := by
    rw [events_upgrade]
    unfold ConflictingChanges
    exact List.mem_filter.2 ⟨hc, by simp [hnone]⟩
  have hne : ConflictingChanges diff (events env.UPGRADE) ≠ [] :=
    List.ne_nil_of_mem hmem
  rw [triggerEvents_eq, if_neg hne]
  exact ⟨_, _, rfl, rfl, rfl, hmem⟩

theorem upgrade_table_witness :
    (⟨"Cluster.Network.CIDR", ActionType.MODIFY, "a", "b"⟩ : Change) ∈
      ([⟨"Kubernetes.Version", ActionType.MODIFY, "v1.27.5", "v1.28.6"⟩,
        ⟨"Cluster.Network.CIDR", ActionType.MODIFY, "a", "b"⟩] : DiffNode) ∧
    ¬ (("Cluster.Network.CIDR" : String) = "Kubernetes.Version" ∨
      ∃ rest, ("Cluster.Network.CIDR" : String) = "Kubernetes.Version." ++ rest) ∧
    ¬ (("Cluster.Network.CIDR" : String) = "Kubernetes.Kubespray.Version" ∨
      ∃ rest, ("Cluster.Network.CIDR" : String) = "Kubernetes.Kubespray.Version." ++ rest) ∧
    triggerEvents [⟨"Kubernetes.Version", ActionType.MODIFY, "v1.27.5", "v1.28.6"⟩]
        env.UPGRADE =
      [{ eType := EventType.OK, path := "Kubernetes.Version",
         changes := [⟨"Kubernetes.Version", ActionType.MODIFY, "v1.27.5", "v1.28.6"⟩] }] ∧
    ∃ pre e,
      triggerEvents
        [⟨"Kubernetes.Version", ActionType.MODIFY, "v1.27.5", "v1.28.6"⟩,
         ⟨"Cluster.Network.CIDR", ActionType.MODIFY, "a", "b"⟩] env.UPGRADE = pre ++ [e] ∧
      e.eType = EventType.BLOCK ∧ e.msg = "Disallowed changes." ∧
      (⟨"Cluster.Network.CIDR", ActionType.MODIFY, "a", "b"⟩ : Change) ∈ e.changes :=
  have hv : ¬ (("Cluster.Network.CIDR" : String) = "Kubernetes.Version" ∨
      ∃ rest, ("Cluster.Network.CIDR" : String) = "Kubernetes.Version." ++ rest) := by
    rintro (h | ⟨rest, h⟩)
    · exact absurd h (by decide)
    · have h2 := congrArg (fun s : String => s.data.head?) h
      simp [String.data_append] at h2
  have hk : ¬ (("Cluster.Network.CIDR" : String) = "Kubernetes.Kubespray.Version" ∨
      ∃ rest, ("Cluster.Network.CIDR" : String) = "Kubernetes.Kubespray.Version." ++ rest) := by
    rintro (h | ⟨rest, h⟩)
    · exact absurd h (by decide)
    · have h2 := congrArg (fun s : String => s.data.head?) h
      simp [String.data_append] at h2
  have t := upgrade_table ActionType.MODIFY "v1.27.5" "v1.28.6"
    [⟨"Kubernetes.Version", ActionType.MODIFY, "v1.27.5", "v1.28.6"⟩,
     ⟨"Cluster.Network.CIDR", ActionType.MODIFY, "a", "b"⟩]
    ⟨"Cluster.Network.CIDR", ActionType.MODIFY, "a", "b"⟩ (by decide) hv hk
  ⟨by decide, hv, hk, t.1, t.2.2.2.2⟩

end Kubitect
